import Mathlib

/-!
Verification development for the per-channel dungeon-crawl session state
machine of `src/commands/dungeon_crawler.py` (class `DungeonCrawl`).

The embedding models the registry entry for one channel as an
`Option CrawlState` (`none` = no active crawl for that channel, matching
absence of the key in `self.active_crawls`).  Python dicts become
association lists with insertion-order-preserving overwrite, Python sets
become `Finset Nat`, and the two sources of external nondeterminism —
`random.choice` and the dungeon JSON files on disk — become explicit
parameters (a `Nat` selector for each random choice, and a
`load : Int → Option RoomGraph` oracle standing for `load_dungeon_json`).
Outbound `channel.send` calls are modelled as a list of `Msg` tags, one
per send site in the source.
-/

abbrev PlayerId := Nat
abbrev RoomId := String
abbrev Emoji := String

/-- A room entry of the per-floor JSON: grid coordinates, the listed `ways`,
and the `"room"` flag (eligibility to host stairs). -/
structure Room where
  x : Int
  y : Int
  ways : List String
  isRoom : Bool
deriving DecidableEq

/-- A per-floor dungeon graph: `startingRoom` plus the `rooms` dict,
kept as an association list in JSON insertion order. -/
structure RoomGraph where
  startingRoom : RoomId
  rooms : List (RoomId × Room)
deriving DecidableEq

/-- First-match lookup in an association list (Python `d[k]` / `d.get(k)`). -/
def dictLookup {α β : Type} [DecidableEq α] : List (α × β) → α → Option β
  | [], _ => none
  | (k, v) :: rest, key => if k = key then some v else dictLookup rest key

/-- Python `d[k] = v`: overwrite in place if the key exists, else append. -/
def dictInsert {α β : Type} [DecidableEq α] : List (α × β) → α → β → List (α × β)
  | [], key, val => [(key, val)]
  | (k, v) :: rest, key, val =>
      if k = key then (key, val) :: rest else (k, v) :: dictInsert rest key val

/-- The `DIRECTIONS` table of the source: emoji to direction name. -/
def DIRECTIONS : List (Emoji × String) :=
  [("⬆️", "Up"), ("⬇️", "Down"), ("⬅️", "Left"), ("➡️", "Right")]

/-- The inverted table `DIRECTION_EMOJI` (direction name to emoji). -/
def DIRECTION_EMOJI : List (String × Emoji) :=
  DIRECTIONS.map (fun p => (p.2, p.1))

/-- The constant `STAIRS_EMOJI`. -/
def STAIRS_EMOJI : Emoji := "🏃‍♂️"

/-- Model of `random.choice` with an explicit selector: picks index `n % length`,
`none` on an empty list (the source guards its `random.choice` calls so
the empty case maps to its explicit `None` / bug-message fallbacks). -/
def randomChoice {α : Type} (l : List α) (n : Nat) : Option α :=
  l[n % l.length]?

/-- The source's `pick_stairs_room(dungeon, exclude_room)`: a random candidate among the
rooms with a truthy `"room"` flag whose id differs from `exclude_room`,
`None` if there is no candidate. -/
def pick_stairs_room (dungeon : RoomGraph) (excludeRoom : RoomId) (rand : Nat) :
    Option RoomId :=
  randomChoice
    ((dungeon.rooms.filter (fun p => p.2.isRoom && p.1 != excludeRoom)).map Prod.fst)
    rand

/-- The mutable per-channel crawl state dict built in `DungeonCrawl.dungeon`
(`crawl_state`); players are represented by their ids. -/
structure CrawlState where
  players : List PlayerId
  floors : Int
  difficulty : String
  currentFloor : Int
  currentDungeon : RoomGraph
  currentRoomId : RoomId
  stairsRoomId : Option RoomId
  awaitingActivity : Finset PlayerId
  waitingForCheckin : Bool
  waitingForReactions : Bool
  pendingReactors : Finset PlayerId
  votes : List (PlayerId × Emoji)
  voteMessageId : Option Nat
  currentPossibleDirs : List (Emoji × String)
deriving DecidableEq

/-- One tag per `channel.send` / `interaction.response.send_message` site of
the source, in the order the sends happen. -/
inductive Msg where
  | alreadyActive
  | loadFailStart
  | intro
  | roomPrompt
  | descends
  | victory
  | loadFail (floor : Int)
  | descendingTo (floor : Int)
  | checkInAgain
  | moves (dir : String)
  | deadEnd
  | noDirectionBug
deriving DecidableEq

/-- The menu comprehension: emoji key to direction for each way listed in
the direction table, built by sequential insert-overwrite. -/
def buildPossibleDirs (ways : List String) : List (Emoji × String) :=
  ways.foldl (fun acc way =>
    match dictLookup DIRECTION_EMOJI way with
    | some e => dictInsert acc e way
    | none => acc) []

/-- The party assembly: the invoking user followed by each provided
optional player not already present. -/
def buildPlayers (user : PlayerId) (opts : List (Option PlayerId)) : List PlayerId :=
  opts.foldl (fun acc o =>
    match o with
    | some p => if p ∈ acc then acc else acc ++ [p]
    | none => acc) [user]

/-- The source's `DungeonCrawl.describe_room`: clears `votes`, resets `pending_reactors`
to the party, raises `waiting_for_reactions`, then reads the current room
from the dungeon dict (a missing key raises a `KeyError` after those
mutations, modelled by returning the partially-mutated state with no send),
computes the emoji menu (adding the stairs option when the current room is
the stairs room and landable), sends the prompt and records the new vote
message id. -/
def describe_room (st : CrawlState) (newMsgId : Nat) : CrawlState × List Msg :=
  match dictLookup st.currentDungeon.rooms st.currentRoomId with
  | none =>
    ({ st with
        votes := [],
        pendingReactors := st.players.toFinset,
        waitingForReactions := true }, [])
  | some room =>
    let base := buildPossibleDirs room.ways
    let possibleDirs :=
      if st.stairsRoomId = some st.currentRoomId ∧ room.isRoom then
        dictInsert base STAIRS_EMOJI "Stairs"
      else base
    ({ st with
        votes := [],
        pendingReactors := st.players.toFinset,
        waitingForReactions := true,
        voteMessageId := some newMsgId,
        currentPossibleDirs := possibleDirs },
     [Msg.roomPrompt])

/-- The values of the `votes` dict. -/
def voteValues (st : CrawlState) : List Emoji :=
  st.votes.map Prod.snd

/-- The keys of `current_possible_dirs` (the `vote_counts` keys). -/
def dirKeys (st : CrawlState) : List Emoji :=
  st.currentPossibleDirs.map Prod.fst

/-- The entry `vote_counts[emoji]` after the counting loop: occurrences of `emoji`
among the vote values (only menu emojis are counted, and a vote value is
only ever counted under its own key). -/
def voteCount (st : CrawlState) (e : Emoji) : Nat :=
  (voteValues st).count e

/-- The maximum of `vote_counts.values()` (the dict is non-empty at every use). -/
def maxVoteCount (st : CrawlState) : Nat :=
  ((dirKeys st).map (voteCount st)).foldl max 0

/-- The list `best_dirs`: the menu emojis whose count equals the maximum and is
positive. -/
def bestDirs (st : CrawlState) : List Emoji :=
  (dirKeys st).filter (fun e =>
    (voteCount st e == maxVoteCount st) && (voteCount st e != 0))

/-- Translation of `(x, y)` by the chosen direction, exactly the
`if`/`elif` chain of `tally_votes_and_move`. -/
def offsetDir (dir : String) (x y : Int) : Int × Int :=
  if dir = "Up" then (x, y - 1)
  else if dir = "Down" then (x, y + 1)
  else if dir = "Left" then (x - 1, y)
  else if dir = "Right" then (x + 1, y)
  else (x, y)

/-- The room-search loop of `tally_votes_and_move`: the first room of the
dict whose coordinates match, else `none`. -/
def findRoomAt : List (RoomId × Room) → Int × Int → Option RoomId
  | [], _ => none
  | (rid, room) :: rest, xy =>
      if room.x = xy.1 ∧ room.y = xy.2 then some rid else findRoomAt rest xy

/-- The source's `DungeonCrawl.tally_votes_and_move`, entered with the state already
registered (the caller just cleared `waiting_for_reactions`).  An empty
menu would make Python's `max()` raise before any send, modelled as
returning the state unchanged with no send. -/
def tally_votes_and_move (st : CrawlState) (tieRand stairsRand : Nat)
    (load : Int → Option RoomGraph) : Option CrawlState × List Msg :=
  if st.currentPossibleDirs.isEmpty then (some st, [])
  else
    match randomChoice (bestDirs st) tieRand with
    | none => (some st, [Msg.noDirectionBug])
    | some emoji =>
      match dictLookup st.currentPossibleDirs emoji with
      | none => (some st, [])
      | some dir =>
        if dir = "Stairs" then
          if st.floors ≤ st.currentFloor then
            (none, [Msg.descends, Msg.victory])
          else
            match load (st.currentFloor + 1) with
            | none => (none, [Msg.descends, Msg.loadFail (st.currentFloor + 1)])
            | some dungeon =>
              (some { st with
                  currentFloor := st.currentFloor + 1,
                  currentDungeon := dungeon,
                  currentRoomId := dungeon.startingRoom,
                  stairsRoomId :=
                    pick_stairs_room dungeon dungeon.startingRoom stairsRand,
                  awaitingActivity := st.players.toFinset,
                  waitingForCheckin := true },
               [Msg.descends, Msg.descendingTo (st.currentFloor + 1),
                Msg.checkInAgain])
        else
          match dictLookup st.currentDungeon.rooms st.currentRoomId with
          | none => (some st, [Msg.moves dir])
          | some room =>
            match findRoomAt st.currentDungeon.rooms (offsetDir dir room.x room.y) with
            | none => (none, [Msg.moves dir, Msg.deadEnd])
            | some rid =>
              (some { st with
                  currentRoomId := rid,
                  awaitingActivity := st.players.toFinset,
                  waitingForCheckin := true },
               [Msg.moves dir, Msg.checkInAgain])

/-- The source's `DungeonCrawl.on_raw_reaction_add` for one channel's registry entry. -/
def on_raw_reaction_add (reg : Option CrawlState) (messageId : Nat)
    (userId : PlayerId) (emoji : Emoji) (tieRand stairsRand : Nat)
    (load : Int → Option RoomGraph) : Option CrawlState × List Msg :=
  match reg with
  | none => (none, [])
  | some st =>
    if st.waitingForReactions = false then (some st, [])
    else if st.voteMessageId ≠ some messageId then (some st, [])
    else if userId ∉ st.players then (some st, [])
    else if (dictLookup st.currentPossibleDirs emoji) = none then (some st, [])
    else
      let st1 := { st with
        votes := dictInsert st.votes userId emoji,
        pendingReactors := st.pendingReactors.erase userId }
      if st1.pendingReactors = ∅ then
        tally_votes_and_move { st1 with waitingForReactions := false }
          tieRand stairsRand load
      else (some st1, [])

/-- The source's `DungeonCrawl.on_message` for one channel's registry entry. -/
def on_message (reg : Option CrawlState) (author : PlayerId)
    (isBot guildNone : Bool) (newMsgId : Nat) : Option CrawlState × List Msg :=
  if guildNone || isBot then (reg, [])
  else
    match reg with
    | none => (none, [])
    | some st =>
      if st.waitingForCheckin = false then (some st, [])
      else
        let st1 := { st with awaitingActivity := st.awaitingActivity.erase author }
        if st1.awaitingActivity = ∅ then
          let res := describe_room { st1 with waitingForCheckin := false } newMsgId
          (some res.1, res.2)
        else (some st1, [])

/-- The source's `DungeonCrawl.dungeon` (the crawl-start slash command) for one channel:
rejected if a crawl is already registered, otherwise loads floor 1
(failure sends a notice and registers nothing) and registers the fresh
crawl state. -/
def dungeonCommand (reg : Option CrawlState) (user : PlayerId)
    (opts : List (Option PlayerId)) (floors : Int) (difficulty : String)
    (stairsRand : Nat) (load : Int → Option RoomGraph) :
    Option CrawlState × List Msg :=
  match reg with
  | some st => (some st, [Msg.alreadyActive])
  | none =>
    match load 1 with
    | none => (none, [Msg.loadFailStart])
    | some dungeon =>
      let allPlayers := buildPlayers user opts
      (some { players := allPlayers,
              floors := floors,
              difficulty := difficulty,
              currentFloor := 1,
              currentDungeon := dungeon,
              currentRoomId := dungeon.startingRoom,
              stairsRoomId := pick_stairs_room dungeon dungeon.startingRoom stairsRand,
              awaitingActivity := allPlayers.toFinset,
              waitingForCheckin := true,
              waitingForReactions := false,
              pendingReactors := ∅,
              votes := [],
              voteMessageId := none,
              currentPossibleDirs := [] },
       [Msg.intro])

/-- An externally delivered event for one channel, carrying the
nondeterminism each handler consumes. -/
inductive Event where
  | startCrawlEv (user : PlayerId) (opts : List (Option PlayerId))
      (floors : Int) (difficulty : String) (stairsRand : Nat)
  | messageEv (author : PlayerId) (isBot guildNone : Bool) (newMsgId : Nat)
  | reactionEv (messageId : Nat) (userId : PlayerId) (emoji : Emoji)
      (tieRand stairsRand : Nat)

/-- Dispatch of one event to the matching handler of `DungeonCrawl`. -/
def stepChannel (load : Int → Option RoomGraph) (reg : Option CrawlState) :
    Event → Option CrawlState × List Msg
  | .startCrawlEv user opts floors difficulty stairsRand =>
      dungeonCommand reg user opts floors difficulty stairsRand load
  | .messageEv author isBot guildNone newMsgId =>
      on_message reg author isBot guildNone newMsgId
  | .reactionEv messageId userId emoji tieRand stairsRand =>
      on_raw_reaction_add reg messageId userId emoji tieRand stairsRand load

/-- The registry entries for one channel reachable from the empty registry
by any sequence of events (under one fixed loader). -/
inductive Reachable (load : Int → Option RoomGraph) : Option CrawlState → Prop
  | init : Reachable load none
  | step {reg : Option CrawlState} (h : Reachable load reg) (e : Event) :
      Reachable load (stepChannel load reg e).1

/-- The spec's four session phases. -/
inductive Phase where
  | CheckIn
  | AwaitingVotes
  | Resolving
  | Ended
deriving DecidableEq

/-- The phase a registry entry is in: `Ended` when deregistered, otherwise
read off the two waiting flags (`Resolving` is the transient
both-flags-false configuration inside a resolution). -/
def phaseOf : Option CrawlState → Phase
  | none => Phase.Ended
  | some st =>
    if st.waitingForCheckin then Phase.CheckIn
    else if st.waitingForReactions then Phase.AwaitingVotes
    else Phase.Resolving

/-! ## Association-list and random-choice lemmas -/

theorem dictLookup_dictInsert_self {α β : Type} [DecidableEq α]
    (l : List (α × β)) (k : α) (v : β) :
    dictLookup (dictInsert l k v) k = some v := by
  induction l with
  | nil => simp [dictInsert, dictLookup]
  | cons p rest ih =>
    obtain ⟨k0, v0⟩ := p
    by_cases h : k0 = k
    · subst h; simp [dictInsert, dictLookup]
    · simp [dictInsert, dictLookup, h, ih]

theorem dictLookup_dictInsert_ne {α β : Type} [DecidableEq α]
    (l : List (α × β)) (k u : α) (v : β) (h : u ≠ k) :
    dictLookup (dictInsert l k v) u = dictLookup l u := by
  have h' : ¬(k = u) := fun hh => h hh.symm
  induction l with
  | nil => simp [dictInsert, dictLookup, h']
  | cons p rest ih =>
    obtain ⟨k0, v0⟩ := p
    by_cases hk : k0 = k
    · subst hk
      simp [dictInsert, dictLookup, h']
    · by_cases hu : k0 = u <;> simp [dictInsert, dictLookup, hk, hu, h, ih]

theorem dictLookup_mem {α β : Type} [DecidableEq α]
    {l : List (α × β)} {k : α} {v : β} (h : dictLookup l k = some v) :
    (k, v) ∈ l := by
  induction l with
  | nil => simp [dictLookup] at h
  | cons p rest ih =>
    obtain ⟨k0, v0⟩ := p
    by_cases hk : k0 = k
    · subst hk
      simp [dictLookup] at h
      simp [h]
    · simp [dictLookup, hk] at h
      exact List.mem_cons_of_mem _ (ih h)

theorem mem_dictLookup {α β : Type} [DecidableEq α]
    {l : List (α × β)} {k : α} {v : β}
    (hnd : (l.map Prod.fst).Nodup) (h : (k, v) ∈ l) :
    dictLookup l k = some v := by
  induction l with
  | nil => simp at h
  | cons p rest ih =>
    obtain ⟨k0, v0⟩ := p
    simp only [List.map_cons, List.nodup_cons] at hnd
    rcases List.mem_cons.mp h with h0 | h0
    · injection h0 with hk hv
      subst hk; subst hv
      simp [dictLookup]
    · have hne : k0 ≠ k := by
        intro hEq
        subst hEq
        exact hnd.1 (List.mem_map.mpr ⟨(k0, v), h0, rfl⟩)
      simp [dictLookup, hne]
      exact ih hnd.2 h0

theorem randomChoice_mem {α : Type} {l : List α} {n : Nat} {x : α}
    (h : randomChoice l n = some x) : x ∈ l := by
  unfold randomChoice at h
  rw [List.getElem?_eq_some] at h
  obtain ⟨hlt, rfl⟩ := h
  exact List.getElem_mem hlt

theorem randomChoice_of_ne_nil {α : Type} (l : List α) (n : Nat) (h : l ≠ []) :
    ∃ x, randomChoice l n = some x ∧ x ∈ l := by
  have hlen : 0 < l.length := List.length_pos.mpr h
  have hlt : n % l.length < l.length := Nat.mod_lt _ hlen
  refine ⟨l[n % l.length], ?_, List.getElem_mem hlt⟩
  unfold randomChoice
  exact List.getElem?_eq_getElem hlt

/-! ## Fold-max lemmas -/

theorem init_le_foldl_max (l : List Nat) (b : Nat) : b ≤ l.foldl max b := by
  induction l generalizing b with
  | nil => exact Nat.le_refl b
  | cons c rest ih => exact Nat.le_trans (Nat.le_max_left b c) (ih (max b c))

theorem le_foldl_max (l : List Nat) : ∀ (b a : Nat), a ∈ l → a ≤ l.foldl max b := by
  induction l with
  | nil => intro b a ha; simp at ha
  | cons c rest ih =>
    intro b a ha
    rcases List.mem_cons.mp ha with h0 | h0
    · subst h0
      exact Nat.le_trans (Nat.le_max_right b a) (init_le_foldl_max rest (max b a))
    · exact ih (max b c) a h0

theorem foldl_max_cases (l : List Nat) (b : Nat) :
    l.foldl max b = b ∨ l.foldl max b ∈ l := by
  induction l generalizing b with
  | nil => exact Or.inl rfl
  | cons c rest ih =>
    rcases ih (max b c) with h | h
    · rcases max_choice b c with hm | hm
      · exact Or.inl (by rw [List.foldl_cons, h, hm])
      · exact Or.inr (by rw [List.foldl_cons, h, hm]; exact List.mem_cons_self c rest)
    · exact Or.inr (List.mem_cons_of_mem c h)

/-! ## Handlers on an unregistered channel -/

theorem on_message_unregistered (author : PlayerId) (isBot guildNone : Bool)
    (mid : Nat) : on_message none author isBot guildNone mid = (none, []) := by
  unfold on_message
  cases guildNone <;> cases isBot <;> rfl

theorem on_raw_reaction_add_unregistered (messageId : Nat) (userId : PlayerId)
    (emoji : Emoji) (tieRand stairsRand : Nat) (load : Int → Option RoomGraph) :
    on_raw_reaction_add none messageId userId emoji tieRand stairsRand load =
      (none, []) := rfl

/-! ## Shared concrete fixtures for witnesses -/

def roomA : Room := { x := 0, y := 0, ways := ["Right"], isRoom := false }

def roomB : Room := { x := 1, y := 0, ways := ["Left"], isRoom := true }

def sampleGraph : RoomGraph :=
  { startingRoom := "A", rooms := [("A", roomA), ("B", roomB)] }

def sampleLoad : Int → Option RoomGraph := fun _ => some sampleGraph

/-- A session of two players sitting in the AwaitingVotes phase: player 1
has voted Right, player 2 is still pending. -/
def votingState : CrawlState :=
  { players := [1, 2],
    floors := 1,
    difficulty := "easy",
    currentFloor := 1,
    currentDungeon := sampleGraph,
    currentRoomId := "A",
    stairsRoomId := some "B",
    awaitingActivity := ∅,
    waitingForCheckin := false,
    waitingForReactions := true,
    pendingReactors := {2},
    votes := [(1, "➡️")],
    voteMessageId := some 100,
    currentPossibleDirs := [("➡️", "Right")] }

/-! ## Claim theorems: frame and error-handling properties -/

/-- C8: a second crawl-start command in a channel whose registry already
holds a session only sends the AlreadyActive notice; the registry entry —
and with it the first session's entire state — is returned unchanged. -/
theorem C8_already_active (st : CrawlState) (user : PlayerId)
    (opts : List (Option PlayerId)) (floors : Int) (difficulty : String)
    (stairsRand : Nat) (load : Int → Option RoomGraph) :
    stepChannel load (some st)
        (Event.startCrawlEv user opts floors difficulty stairsRand) =
      (some st, [Msg.alreadyActive]) := rfl

/-- C4: in the AwaitingVotes phase, a reaction event from a non-player, or
on a message other than the active vote message, or with a symbol that is
not a key of the emoji menu, leaves the whole session state unchanged and
sends nothing. -/
theorem C4_reaction_frame (st : CrawlState) (messageId : Nat) (userId : PlayerId)
    (emoji : Emoji) (tieRand stairsRand : Nat) (load : Int → Option RoomGraph)
    (hphase : st.waitingForReactions = true)
    (hrej : userId ∉ st.players ∨ st.voteMessageId ≠ some messageId ∨
        dictLookup st.currentPossibleDirs emoji = none) :
    stepChannel load (some st)
        (Event.reactionEv messageId userId emoji tieRand stairsRand) =
      (some st, []) := by
  by_cases hm : st.voteMessageId = some messageId
  · rcases hrej with h | h | h
    · simp [stepChannel, on_raw_reaction_add, hphase, hm, h]
    · exact absurd hm h
    · by_cases hp : userId ∈ st.players
      · simp [stepChannel, on_raw_reaction_add, hphase, hm, hp, h]
      · simp [stepChannel, on_raw_reaction_add, hphase, hm, hp]
  · simp [stepChannel, on_raw_reaction_add, hphase, hm]

/-- Witness for C4 at a concrete session: a reaction from non-player 7 is
ignored without any state change. -/
theorem C4_reaction_frame_witness :
    stepChannel sampleLoad (some votingState)
        (Event.reactionEv 100 7 "➡️" 0 0) = (some votingState, []) :=
  C4_reaction_frame votingState 100 7 "➡️" 0 0 sampleLoad (by decide)
    (Or.inl (by decide))

/-- C5: an accepted vote from a player who has already voted (hence is no
longer pending) while another player is still pending overwrites only that
player's entry of `votes`, leaves `pendingVotes` exactly as it was, and
does not transition the phase (the handler returns with
`waiting_for_reactions` still set and sends nothing). -/
theorem C5_revote_overwrite (st : CrawlState) (messageId : Nat)
    (userId : PlayerId) (emoji old : Emoji) (tieRand stairsRand : Nat)
    (load : Int → Option RoomGraph)
    (hphase : st.waitingForReactions = true)
    (hmsg : st.voteMessageId = some messageId)
    (hplayer : userId ∈ st.players)
    (hmenu : dictLookup st.currentPossibleDirs emoji ≠ none)
    (hvoted : dictLookup st.votes userId = some old)
    (hnotpending : userId ∉ st.pendingReactors)
    (hpending : st.pendingReactors.Nonempty) :
    stepChannel load (some st)
        (Event.reactionEv messageId userId emoji tieRand stairsRand) =
      (some { st with votes := dictInsert st.votes userId emoji }, []) ∧
    dictLookup (dictInsert st.votes userId emoji) userId = some emoji ∧
    (∀ u, u ≠ userId →
      dictLookup (dictInsert st.votes userId emoji) u = dictLookup st.votes u) := by
  have herase : st.pendingReactors.erase userId = st.pendingReactors :=
    Finset.erase_eq_of_not_mem hnotpending
  have hne : st.pendingReactors ≠ ∅ := Finset.nonempty_iff_ne_empty.mp hpending
  refine ⟨?_, dictLookup_dictInsert_self _ _ _,
    fun u hu => dictLookup_dictInsert_ne _ _ _ _ hu⟩
  simp [stepChannel, on_raw_reaction_add, hphase, hmsg, hplayer, hmenu, herase, hne]

/-- Witness for C5 at a concrete session: player 1 re-votes Right while
player 2 is still pending. -/
theorem C5_revote_overwrite_witness :
    stepChannel sampleLoad (some votingState)
        (Event.reactionEv 100 1 "➡️" 0 0) =
      (some { votingState with votes := dictInsert votingState.votes 1 "➡️" },
       []) :=
  (C5_revote_overwrite votingState 100 1 "➡️" "➡️" 0 0 sampleLoad (by decide)
    (by decide) (by decide) (by decide) (by decide) (by decide) (by decide)).1

/-! ## Vote-tally lemmas (C3) -/

theorem voteCount_le_max (st : CrawlState) (e : Emoji) (he : e ∈ dirKeys st) :
    voteCount st e ≤ maxVoteCount st :=
  le_foldl_max _ 0 _ (List.mem_map_of_mem (voteCount st) he)

theorem mem_bestDirs (st : CrawlState) (e : Emoji) :
    e ∈ bestDirs st ↔
      e ∈ dirKeys st ∧ voteCount st e = maxVoteCount st ∧ voteCount st e ≠ 0 := by
  simp [bestDirs, List.mem_filter]

/-- C3: whenever the vote dict is non-empty and every recorded vote is a
menu key, the random tie-break always returns a menu emoji whose count is
maximal; and when the maximizer is unique, every selector value returns
exactly that emoji (determinism). -/
theorem C3_tally_maximal (st : CrawlState)
    (hne : st.votes ≠ [])
    (hsub : ∀ p ∈ st.votes, p.2 ∈ dirKeys st) :
    (∀ tieRand, ∃ e, randomChoice (bestDirs st) tieRand = some e ∧
        e ∈ dirKeys st ∧ voteCount st e = maxVoteCount st ∧
        ∀ d ∈ dirKeys st, voteCount st d ≤ voteCount st e) ∧
    (∀ e0 ∈ dirKeys st, voteCount st e0 = maxVoteCount st →
      (∀ d ∈ dirKeys st, voteCount st d = maxVoteCount st → d = e0) →
      ∀ tieRand, randomChoice (bestDirs st) tieRand = some e0) := by
  obtain ⟨q, rest, hq⟩ : ∃ q rest, st.votes = q :: rest := by
    cases hv : st.votes with
    | nil => exact absurd hv hne
    | cons q rest => exact ⟨q, rest, rfl⟩
  have hqmem : q ∈ st.votes := hq ▸ List.mem_cons_self q rest
  have hqkey : q.2 ∈ dirKeys st := hsub q hqmem
  have hqval : q.2 ∈ voteValues st := List.mem_map_of_mem Prod.snd hqmem
  have hqcount : 0 < voteCount st q.2 := List.count_pos_iff.mpr hqval
  have hmax1 : 0 < maxVoteCount st :=
    Nat.lt_of_lt_of_le hqcount (voteCount_le_max st q.2 hqkey)
  have hattained : maxVoteCount st ∈ (dirKeys st).map (voteCount st) := by
    rcases foldl_max_cases ((dirKeys st).map (voteCount st)) 0 with h | h
    · exact absurd (h : maxVoteCount st = 0) (Nat.pos_iff_ne_zero.mp hmax1)
    · exact h
  obtain ⟨ebest, hebestkey, hebestcount⟩ := List.mem_map.mp hattained
  have hbestmem : ebest ∈ bestDirs st := by
    refine (mem_bestDirs st ebest).mpr ⟨hebestkey, hebestcount, ?_⟩
    rw [hebestcount]
    exact Nat.pos_iff_ne_zero.mp hmax1
  have hbestne : bestDirs st ≠ [] := List.ne_nil_of_mem hbestmem
  constructor
  · intro tieRand
    obtain ⟨e, hsome, hmem⟩ := randomChoice_of_ne_nil _ tieRand hbestne
    obtain ⟨hekey, hemax, _⟩ := (mem_bestDirs st e).mp hmem
    refine ⟨e, hsome, hekey, hemax, fun d hd => ?_⟩
    rw [hemax]
    exact voteCount_le_max st d hd
  · intro e0 he0key he0max huniq tieRand
    obtain ⟨e, hsome, hmem⟩ := randomChoice_of_ne_nil _ tieRand hbestne
    obtain ⟨hekey, hemax, _⟩ := (mem_bestDirs st e).mp hmem
    rw [hsome, huniq e hekey hemax]

/-- Witness for C3 at a concrete session: with the single recorded vote
Right, selector 0 picks the unique maximizer. -/
theorem C3_tally_maximal_witness :
    ∃ e, randomChoice (bestDirs votingState) 0 = some e ∧
      e ∈ dirKeys votingState ∧
      voteCount votingState e = maxVoteCount votingState ∧
      ∀ d ∈ dirKeys votingState,
        voteCount votingState d ≤ voteCount votingState e :=
  (C3_tally_maximal votingState (by decide) (by decide)).1 0

/-! ## Resolution characterizations (C6, C7) -/

theorem menu_ne_nil_of_choice {st : CrawlState} {tieRand : Nat} {e : Emoji}
    (h : randomChoice (bestDirs st) tieRand = some e) :
    st.currentPossibleDirs.isEmpty = false := by
  have hmem := randomChoice_mem h
  have hkey : e ∈ dirKeys st := ((mem_bestDirs st e).mp hmem).1
  have hne : st.currentPossibleDirs ≠ [] := by
    intro hnil
    rw [dirKeys, hnil] at hkey
    simp at hkey
  simpa [List.isEmpty_iff] using hne

/-- C6: when the resolution picks the stairs option, the session announces
victory and is removed from the registry exactly when the current floor is
the last one; otherwise the floor counter is incremented, the next floor's
graph is loaded (a missing graph is fatal: notice sent and session removed),
the party is placed on its starting room, stairs are recomputed, and the
session returns to the check-in phase. -/
theorem C6_descend_resolution (st : CrawlState) (e : Emoji)
    (tieRand stairsRand : Nat) (load : Int → Option RoomGraph)
    (hfloors : 1 ≤ st.floors)
    (hinv : st.currentFloor ≤ st.floors)
    (hch : randomChoice (bestDirs st) tieRand = some e)
    (hstairs : dictLookup st.currentPossibleDirs e = some "Stairs") :
    (st.currentFloor = st.floors →
      tally_votes_and_move st tieRand stairsRand load =
        (none, [Msg.descends, Msg.victory])) ∧
    (st.currentFloor ≠ st.floors →
      (load (st.currentFloor + 1) = none →
        tally_votes_and_move st tieRand stairsRand load =
          (none, [Msg.descends, Msg.loadFail (st.currentFloor + 1)])) ∧
      (∀ d, load (st.currentFloor + 1) = some d →
        tally_votes_and_move st tieRand stairsRand load =
          (some { st with
              currentFloor := st.currentFloor + 1,
              currentDungeon := d,
              currentRoomId := d.startingRoom,
              stairsRoomId := pick_stairs_room d d.startingRoom stairsRand,
              awaitingActivity := st.players.toFinset,
              waitingForCheckin := true },
           [Msg.descends, Msg.descendingTo (st.currentFloor + 1),
            Msg.checkInAgain]))) := by
  have hmenu := menu_ne_nil_of_choice hch
  constructor
  · intro heq
    have hge : st.floors ≤ st.currentFloor := le_of_eq heq.symm
    simp [tally_votes_and_move, hmenu, hch, hstairs, hge]
  · intro hne
    have hlt : ¬(st.floors ≤ st.currentFloor) := by omega
    refine ⟨fun hload => ?_, fun d hload => ?_⟩
    · simp [tally_votes_and_move, hmenu, hch, hstairs, hlt, hload]
    · simp [tally_votes_and_move, hmenu, hch, hstairs, hlt, hload]

/-- A two-player session on the stairs room of the last floor with both
votes on the stairs emoji. -/
def stairsState : CrawlState :=
  { votingState with
      currentRoomId := "B",
      votes := [(1, "🏃‍♂️"), (2, "🏃‍♂️")],
      pendingReactors := ∅,
      waitingForReactions := false,
      currentPossibleDirs := [("⬅️", "Left"), ("🏃‍♂️", "Stairs")] }

/-- Witness for C6: on the single-floor crawl, resolving the stairs vote
announces victory and deregisters the session. -/
theorem C6_descend_resolution_witness :
    tally_votes_and_move stairsState 0 0 sampleLoad =
      (none, [Msg.descends, Msg.victory]) :=
  (C6_descend_resolution stairsState "🏃‍♂️" 0 0 sampleLoad (by decide)
    (by decide) (by decide) (by decide)).1 (by decide)

/-- C7: when the resolution picks a cardinal direction and no room lies at
the translated coordinates, exactly one dead-end notice is sent (after the
movement announcement) and the session is removed from the registry; an
unregistered channel then ignores every further message or reaction
event. -/
theorem C7_dead_end (st : CrawlState) (e : Emoji) (dir : String) (room : Room)
    (tieRand stairsRand : Nat) (load : Int → Option RoomGraph)
    (hch : randomChoice (bestDirs st) tieRand = some e)
    (hdir : dictLookup st.currentPossibleDirs e = some dir)
    (hnotstairs : dir ≠ "Stairs")
    (hroom : dictLookup st.currentDungeon.rooms st.currentRoomId = some room)
    (hnone : findRoomAt st.currentDungeon.rooms (offsetDir dir room.x room.y) = none) :
    tally_votes_and_move st tieRand stairsRand load =
      (none, [Msg.moves dir, Msg.deadEnd]) ∧
    ([Msg.moves dir, Msg.deadEnd].count Msg.deadEnd = 1) ∧
    (∀ author isBot guildNone mid,
      stepChannel load none (Event.messageEv author isBot guildNone mid) =
        (none, [])) ∧
    (∀ mid uid em tr sr,
      stepChannel load none (Event.reactionEv mid uid em tr sr) = (none, [])) := by
  have hmenu := menu_ne_nil_of_choice hch
  refine ⟨?_, ?_, fun a b g m => on_message_unregistered a b g m,
    fun m u em t s => rfl⟩
  · simp [tally_votes_and_move, hmenu, hch, hdir, hnotstairs, hroom, hnone]
  · simp [List.count_cons]

/-- A two-player session in room A with both votes on Left, where no room
lies to the left of A. -/
def deadEndState : CrawlState :=
  { votingState with
      votes := [(1, "⬅️"), (2, "⬅️")],
      pendingReactors := ∅,
      waitingForReactions := false,
      currentPossibleDirs := [("⬅️", "Left")] }

/-- Witness for C7: resolving Left from room A hits a dead end and tears
the session down. -/
theorem C7_dead_end_witness :
    tally_votes_and_move deadEndState 0 0 sampleLoad =
      (none, [Msg.moves "Left", Msg.deadEnd]) :=
  (C7_dead_end deadEndState "⬅️" "Left" roomA 0 0 sampleLoad (by decide)
    (by decide) (by decide) (by decide) (by decide)).1

/-! ## Room navigator and its inverse (C9) -/

/-- The spec's Room Navigator `step`, assembled from the same grid
arithmetic (`offsetDir`) and first-match room search (`findRoomAt`) that
`tally_votes_and_move` inlines: look up the source room, translate its
coordinates, and return the room found there. -/
def stepRoom (g : RoomGraph) (rid : RoomId) (dir : String) : Option RoomId :=
  match dictLookup g.rooms rid with
  | none => none
  | some room => findRoomAt g.rooms (offsetDir dir room.x room.y)

/-- Opposite cardinal direction, used only to state the inverse law. -/
def oppositeDir (dir : String) : String :=
  if dir = "Up" then "Down"
  else if dir = "Down" then "Up"
  else if dir = "Left" then "Right"
  else if dir = "Right" then "Left"
  else dir

theorem findRoomAt_sound {rooms : List (RoomId × Room)} {xy : Int × Int}
    {rid : RoomId} (h : findRoomAt rooms xy = some rid) :
    ∃ room, (rid, room) ∈ rooms ∧ room.x = xy.1 ∧ room.y = xy.2 := by
  induction rooms with
  | nil => simp [findRoomAt] at h
  | cons p rest ih =>
    obtain ⟨r0, m0⟩ := p
    by_cases hc : m0.x = xy.1 ∧ m0.y = xy.2
    · rw [findRoomAt, if_pos hc] at h
      obtain rfl : r0 = rid := by injection h
      exact ⟨m0, List.mem_cons_self _ _, hc.1, hc.2⟩
    · rw [findRoomAt, if_neg hc] at h
      obtain ⟨room, hm, hx, hy⟩ := ih h
      exact ⟨room, List.mem_cons_of_mem _ hm, hx, hy⟩

theorem findRoomAt_unique {rooms : List (RoomId × Room)} {rid : RoomId}
    {room : Room}
    (hinj : rooms.Pairwise (fun p q => (p.2.x, p.2.y) ≠ (q.2.x, q.2.y)))
    (hmem : (rid, room) ∈ rooms) {xy : Int × Int}
    (hx : room.x = xy.1) (hy : room.y = xy.2) :
    findRoomAt rooms xy = some rid := by
  induction rooms with
  | nil => simp at hmem
  | cons p rest ih =>
    obtain ⟨r0, m0⟩ := p
    rw [List.pairwise_cons] at hinj
    rcases List.mem_cons.mp hmem with h0 | h0
    · injection h0 with hk hv
      subst hk; subst hv
      rw [findRoomAt, if_pos ⟨hx, hy⟩]
    · by_cases hc : m0.x = xy.1 ∧ m0.y = xy.2
      · exact absurd (by rw [hc.1, hc.2, hx, hy] :
          ((r0, m0).2.x, (r0, m0).2.y) = ((rid, room).2.x, (rid, room).2.y))
          (hinj.1 _ h0)
      · rw [findRoomAt, if_neg hc]
        exact ih hinj.2 h0

/-- C9: on a graph whose rooms have pairwise-distinct grid coordinates
(and unique ids), stepping in a cardinal direction and then stepping back
in the opposite direction returns to the original room whenever the
intermediate room exists. -/
theorem C9_step_inverse (g : RoomGraph) (rid rid2 : RoomId) (dir : String)
    (hnd : (g.rooms.map Prod.fst).Nodup)
    (hinj : g.rooms.Pairwise (fun p q => (p.2.x, p.2.y) ≠ (q.2.x, q.2.y)))
    (hdir : dir = "Up" ∨ dir = "Down" ∨ dir = "Left" ∨ dir = "Right")
    (hstep : stepRoom g rid dir = some rid2) :
    stepRoom g rid2 (oppositeDir dir) = some rid := by
  unfold stepRoom at hstep
  cases hlk : dictLookup g.rooms rid with
  | none => rw [hlk] at hstep; exact absurd hstep (by simp)
  | some room =>
    rw [hlk] at hstep
    obtain ⟨room2, hmem2, hx2, hy2⟩ := findRoomAt_sound hstep
    have hroommem : (rid, room) ∈ g.rooms := dictLookup_mem hlk
    have hlk2 : dictLookup g.rooms rid2 = some room2 := mem_dictLookup hnd hmem2
    unfold stepRoom
    rw [hlk2]
    apply findRoomAt_unique hinj hroommem
    · rcases hdir with h | h | h | h <;> subst h <;>
        simp [oppositeDir, offsetDir] at hx2 hy2 ⊢ <;> omega
    · rcases hdir with h | h | h | h <;> subst h <;>
        simp [oppositeDir, offsetDir] at hx2 hy2 ⊢ <;> omega

/-- Witness for C9 on the two-room sample graph: Right from A reaches B,
and Left from B returns to A. -/
theorem C9_step_inverse_witness :
    stepRoom sampleGraph "B" (oppositeDir "Right") = some "A" :=
  C9_step_inverse sampleGraph "A" "B" "Right" (by decide) (by decide)
    (by decide) (by decide)

/-! ## Check-in accumulation (C2) -/

/-- Folding a sequence of qualifying chat messages (author id, fresh
message id) through `on_message`, keeping only the registry entry. -/
def processMessages (reg : Option CrawlState) :
    List (PlayerId × Nat) → Option CrawlState
  | [] => reg
  | (a, mid) :: rest => processMessages (on_message reg a false false mid).1 rest

theorem describe_room_fields (st : CrawlState) (mid : Nat) :
    (describe_room st mid).1.players = st.players ∧
    (describe_room st mid).1.waitingForCheckin = st.waitingForCheckin ∧
    (describe_room st mid).1.waitingForReactions = true ∧
    (describe_room st mid).1.pendingReactors = st.players.toFinset ∧
    (describe_room st mid).1.votes = [] ∧
    (describe_room st mid).1.floors = st.floors ∧
    (describe_room st mid).1.currentFloor = st.currentFloor := by
  unfold describe_room
  cases dictLookup st.currentDungeon.rooms st.currentRoomId <;> simp

theorem processMessages_stable (st : CrawlState)
    (h : st.waitingForCheckin = false) :
    ∀ ev, processMessages (some st) ev = some st := by
  intro ev
  induction ev with
  | nil => rfl
  | cons e rest ih =>
    obtain ⟨a, mid⟩ := e
    have hstep : on_message (some st) a false false mid = (some st, []) := by
      simp [on_message, h]
    rw [processMessages, hstep]
    exact ih

theorem processMessages_noTransition :
    ∀ (ev : List (PlayerId × Nat)) (st : CrawlState),
      st.waitingForCheckin = true →
      ¬(st.awaitingActivity ⊆ (ev.map Prod.fst).toFinset) →
      processMessages (some st) ev =
        some { st with
          awaitingActivity :=
            st.awaitingActivity \ (ev.map Prod.fst).toFinset } := by
  intro ev
  induction ev with
  | nil =>
    intro st hck hns
    simp [processMessages]
  | cons e rest ih =>
    obtain ⟨a, mid⟩ := e
    intro st hck hns
    rw [List.map_cons, List.toFinset_cons] at hns
    obtain ⟨x, hxA, hxnot⟩ := Finset.not_subset.mp hns
    have hxa : x ≠ a := fun hEq => hxnot (by rw [hEq]; exact Finset.mem_insert_self a _)
    have hxrest : x ∉ (rest.map Prod.fst).toFinset :=
      fun hc => hxnot (Finset.mem_insert_of_mem hc)
    have hxin : x ∈ st.awaitingActivity.erase a := Finset.mem_erase.mpr ⟨hxa, hxA⟩
    have hAerase_ne : st.awaitingActivity.erase a ≠ ∅ :=
      fun hE => by simp [hE] at hxin
    have hsub : ¬(st.awaitingActivity.erase a ⊆ (rest.map Prod.fst).toFinset) :=
      fun hs => hxrest (hs hxin)
    have hstep : (on_message (some st) a false false mid).1 =
        some { st with awaitingActivity := st.awaitingActivity.erase a } := by
      simp [on_message, hck, hAerase_ne]
    rw [processMessages, hstep,
      ih { st with awaitingActivity := st.awaitingActivity.erase a } hck hsub]
    have hsd : st.awaitingActivity.erase a \ (rest.map Prod.fst).toFinset =
        st.awaitingActivity \ insert a (rest.map Prod.fst).toFinset := by
      rw [Finset.erase_eq, sdiff_sdiff, Finset.insert_eq, Finset.sup_eq_union]
    simp [hsd]

theorem processMessages_transition :
    ∀ (ev : List (PlayerId × Nat)) (st : CrawlState),
      st.waitingForCheckin = true →
      st.awaitingActivity.Nonempty →
      st.awaitingActivity ⊆ (ev.map Prod.fst).toFinset →
      ∃ st', processMessages (some st) ev = some st' ∧
        st'.waitingForCheckin = false ∧
        st'.waitingForReactions = true ∧
        st'.pendingReactors = st.players.toFinset ∧
        st'.votes = [] := by
  intro ev
  induction ev with
  | nil =>
    intro st hck hne hsub
    simp only [List.map_nil, List.toFinset_nil, Finset.subset_empty] at hsub
    exact absurd hsub (Finset.nonempty_iff_ne_empty.mp hne)
  | cons e rest ih =>
    obtain ⟨a, mid⟩ := e
    intro st hck hne hsub
    by_cases hE : st.awaitingActivity.erase a = ∅
    · have hstep : (on_message (some st) a false false mid).1 =
          some (describe_room { st with
            awaitingActivity := st.awaitingActivity.erase a,
            waitingForCheckin := false } mid).1 := by
        simp [on_message, hck, hE]
      obtain ⟨hp, hc, hr, hpend, hv, _, _⟩ := describe_room_fields
        { st with
          awaitingActivity := st.awaitingActivity.erase a,
          waitingForCheckin := false } mid
      refine ⟨_, ?_, hc, hr, hpend, hv⟩
      rw [processMessages, hstep]
      exact processMessages_stable _ hc rest
    · have hne' : (st.awaitingActivity.erase a).Nonempty :=
        Finset.nonempty_iff_ne_empty.mpr hE
      have hsub' : st.awaitingActivity.erase a ⊆ (rest.map Prod.fst).toFinset := by
        intro x hx
        have hxA := Finset.mem_of_mem_erase hx
        have hxne := (Finset.mem_erase.mp hx).1
        have := hsub hxA
        rw [List.map_cons, List.toFinset_cons] at this
        rcases Finset.mem_insert.mp this with h0 | h0
        · exact absurd h0 hxne
        · exact h0
      have hstep : (on_message (some st) a false false mid).1 =
          some { st with awaitingActivity := st.awaitingActivity.erase a } := by
        simp [on_message, hck, hE]
      rw [processMessages, hstep]
      exact ih { st with awaitingActivity := st.awaitingActivity.erase a }
        hck hne' hsub'

/-- The observable outcome of the CheckIn→AwaitingVotes transition: the
check-in gate is down, vote collection is armed, `pendingVotes` is reset
to the whole party and `votes` is cleared. -/
def TransitionedToVoting (ps : List PlayerId) (res : Option CrawlState) : Prop :=
  ∃ st', res = some st' ∧ st'.waitingForCheckin = false ∧
    st'.waitingForReactions = true ∧ st'.pendingReactors = ps.toFinset ∧
    st'.votes = []

/-- C2: from a fresh CheckIn phase, a sequence of qualifying check-in
messages produces the transition to AwaitingVotes exactly when every
player appears among the authors, and the outcome is invariant under
permuting the order in which the authors speak. -/
theorem C2_checkin_transition (st : CrawlState) (ev ev' : List (PlayerId × Nat))
    (hck : st.waitingForCheckin = true)
    (hrx : st.waitingForReactions = false)
    (hinit : st.awaitingActivity = st.players.toFinset)
    (hple : st.players ≠ [])
    (hperm : List.Perm (ev.map Prod.fst) (ev'.map Prod.fst)) :
    (TransitionedToVoting st.players (processMessages (some st) ev) ↔
      st.players.toFinset ⊆ (ev.map Prod.fst).toFinset) ∧
    (TransitionedToVoting st.players (processMessages (some st) ev) ↔
      TransitionedToVoting st.players (processMessages (some st) ev')) := by
  have key : ∀ l : List (PlayerId × Nat),
      TransitionedToVoting st.players (processMessages (some st) l) ↔
        st.players.toFinset ⊆ (l.map Prod.fst).toFinset := by
    intro l
    constructor
    · intro ht
      by_contra hns
      rw [← hinit] at hns
      rw [processMessages_noTransition l st hck hns] at ht
      obtain ⟨st', hEq, hcf, _⟩ := ht
      injection hEq with hEq
      rw [← hEq] at hcf
      have hcf' : st.waitingForCheckin = false := hcf
      rw [hck] at hcf'
      exact Bool.noConfusion hcf'
    · intro hsub
      have hne : st.awaitingActivity.Nonempty := by
        rw [hinit]
        exact (List.toFinset_nonempty_iff _).mpr hple
      obtain ⟨st', h1, h2, h3, h4, h5⟩ :=
        processMessages_transition l st hck hne (hinit ▸ hsub)
      exact ⟨st', h1, h2, h3, h4, h5⟩
  refine ⟨key ev, (key ev).trans ?_⟩
  rw [List.toFinset_eq_of_perm _ _ hperm]
  exact (key ev').symm

/-- A two-player session in a fresh CheckIn phase on room A. -/
def checkinState : CrawlState :=
  { votingState with
      awaitingActivity := {1, 2},
      waitingForCheckin := true,
      waitingForReactions := false,
      pendingReactors := ∅,
      votes := [],
      voteMessageId := none,
      currentPossibleDirs := [] }

/-- Witness for C2: after both players speak, the concrete session has
transitioned to AwaitingVotes. -/
theorem C2_checkin_transition_witness :
    TransitionedToVoting checkinState.players
      (processMessages (some checkinState) [(1, 10), (2, 11)]) :=
  (C2_checkin_transition checkinState [(1, 10), (2, 11)] [(2, 11), (1, 10)]
    (by decide) (by decide) (by decide) (by decide) (by decide)).1.mpr
    (by decide)

/-! ## Reachability invariant (C1, C10) -/

/-- The inductive state invariant: the two waiting flags are mutually
exclusive, and the floor counter never exceeds the configured floor count
whenever that count is at least 1. -/
def GoodState (st : CrawlState) : Prop :=
  (st.waitingForCheckin = false ∨ st.waitingForReactions = false) ∧
  (1 ≤ st.floors → st.currentFloor ≤ st.floors)

theorem tally_shape (st : CrawlState) (tieRand stairsRand : Nat)
    (load : Int → Option RoomGraph) :
    (tally_votes_and_move st tieRand stairsRand load).1 = none ∨
    (tally_votes_and_move st tieRand stairsRand load).1 = some st ∨
    (∃ dungeon, ¬(st.floors ≤ st.currentFloor) ∧
      (tally_votes_and_move st tieRand stairsRand load).1 =
        some { st with
          currentFloor := st.currentFloor + 1,
          currentDungeon := dungeon,
          currentRoomId := dungeon.startingRoom,
          stairsRoomId := pick_stairs_room dungeon dungeon.startingRoom stairsRand,
          awaitingActivity := st.players.toFinset,
          waitingForCheckin := true }) ∨
    (∃ rid, (tally_votes_and_move st tieRand stairsRand load).1 =
        some { st with
          currentRoomId := rid,
          awaitingActivity := st.players.toFinset,
          waitingForCheckin := true }) := by
  unfold tally_votes_and_move
  split
  · exact Or.inr (Or.inl rfl)
  · split
    · exact Or.inr (Or.inl rfl)
    · split
      · exact Or.inr (Or.inl rfl)
      · split
        · split
          · exact Or.inl rfl
          · split
            · exact Or.inl rfl
            · exact Or.inr (Or.inr (Or.inl ⟨_, by assumption, rfl⟩))
        · split
          · exact Or.inr (Or.inl rfl)
          · split
            · exact Or.inl rfl
            · exact Or.inr (Or.inr (Or.inr ⟨_, rfl⟩))

theorem tally_good (st : CrawlState) (tieRand stairsRand : Nat)
    (load : Int → Option RoomGraph)
    (hck : st.waitingForCheckin = false)
    (hrx : st.waitingForReactions = false)
    (hfl : 1 ≤ st.floors → st.currentFloor ≤ st.floors) :
    ∀ st', (tally_votes_and_move st tieRand stairsRand load).1 = some st' →
      GoodState st' := by
  intro st' h
  rcases tally_shape st tieRand stairsRand load with
    h0 | h0 | ⟨dungeon, hlt, h0⟩ | ⟨rid, h0⟩ <;> rw [h0] at h
  · exact absurd h (by simp)
  · injection h with h
    rw [← h]
    exact ⟨Or.inl hck, hfl⟩
  · injection h with h
    rw [← h]
    refine ⟨Or.inr hrx, fun hf => ?_⟩
    show st.currentFloor + 1 ≤ st.floors
    omega
  · injection h with h
    rw [← h]
    refine ⟨Or.inr hrx, fun hf => ?_⟩
    show st.currentFloor ≤ st.floors
    exact hfl hf

theorem dungeonCommand_good (user : PlayerId) (opts : List (Option PlayerId))
    (floors : Int) (difficulty : String) (stairsRand : Nat)
    (load : Int → Option RoomGraph) :
    ∀ st', (dungeonCommand none user opts floors difficulty stairsRand load).1 =
      some st' → GoodState st' := by
  intro st' h
  unfold dungeonCommand at h
  cases hl : load 1 with
  | none => rw [hl] at h; exact absurd h (by simp)
  | some dungeon =>
    rw [hl] at h
    simp only [Option.some.injEq] at h
    rw [← h]
    exact ⟨Or.inr rfl, fun hf => hf⟩

theorem on_message_good (st : CrawlState) (hg : GoodState st)
    (author : PlayerId) (isBot guildNone : Bool) (mid : Nat) :
    ∀ st', (on_message (some st) author isBot guildNone mid).1 = some st' →
      GoodState st' := by
  intro st' h
  by_cases hq : (guildNone || isBot) = true
  · simp [on_message, hq] at h
    rw [← h]; exact hg
  · by_cases hck : st.waitingForCheckin = false
    · simp [on_message, hq, hck] at h
      rw [← h]; exact hg
    · by_cases hE : st.awaitingActivity.erase author = ∅
      · have hstep : (on_message (some st) author isBot guildNone mid).1 =
            some (describe_room { st with
              awaitingActivity := st.awaitingActivity.erase author,
              waitingForCheckin := false } mid).1 := by
          simp [on_message, hq, hck, hE]
        rw [hstep] at h
        injection h with h
        obtain ⟨hp, hc, hr, hpend, hv, hflo, hcf⟩ := describe_room_fields
          { st with
            awaitingActivity := st.awaitingActivity.erase author,
            waitingForCheckin := false } mid
        rw [← h]
        refine ⟨Or.inl hc, fun hf => ?_⟩
        rw [hflo] at hf ⊢
        rw [hcf]
        exact hg.2 hf
      · have hstep : (on_message (some st) author isBot guildNone mid).1 =
            some { st with
              awaitingActivity := st.awaitingActivity.erase author } := by
          simp [on_message, hq, hck, hE]
        rw [hstep] at h
        injection h with h
        rw [← h]
        refine ⟨?_, hg.2⟩
        rcases hg.1 with h0 | h0
        · exact absurd h0 hck
        · exact Or.inr h0

theorem on_reaction_good (st : CrawlState) (hg : GoodState st)
    (messageId : Nat) (userId : PlayerId) (emoji : Emoji)
    (tieRand stairsRand : Nat) (load : Int → Option RoomGraph) :
    ∀ st', (on_raw_reaction_add (some st) messageId userId emoji
      tieRand stairsRand load).1 = some st' → GoodState st' := by
  intro st' h
  by_cases hrx : st.waitingForReactions = false
  · simp [on_raw_reaction_add, hrx] at h
    rw [← h]; exact hg
  · have hrxT : st.waitingForReactions = true := by
      revert hrx; cases st.waitingForReactions <;> simp
    have hckF : st.waitingForCheckin = false := by
      rcases hg.1 with h0 | h0
      · exact h0
      · rw [hrxT] at h0; exact Bool.noConfusion h0
    by_cases hm : st.voteMessageId ≠ some messageId
    · simp [on_raw_reaction_add, hrx, hm] at h
      rw [← h]; exact hg
    · by_cases hp : userId ∉ st.players
      · simp [on_raw_reaction_add, hrx, hm, hp] at h
        rw [← h]; exact hg
      · by_cases hl : dictLookup st.currentPossibleDirs emoji = none
        · simp [on_raw_reaction_add, hrx, hm, hp, hl] at h
          rw [← h]; exact hg
        · by_cases hE : st.pendingReactors.erase userId = ∅
          · have hstep : (on_raw_reaction_add (some st) messageId userId emoji
                tieRand stairsRand load).1 =
                (tally_votes_and_move { st with
                  votes := dictInsert st.votes userId emoji,
                  pendingReactors := st.pendingReactors.erase userId,
                  waitingForReactions := false } tieRand stairsRand load).1 := by
              simp [on_raw_reaction_add, hrx, hm, hp, hl, hE]
            rw [hstep] at h
            exact tally_good { st with
                votes := dictInsert st.votes userId emoji,
                pendingReactors := st.pendingReactors.erase userId,
                waitingForReactions := false }
              tieRand stairsRand load hckF rfl hg.2 st' h
          · have hstep : (on_raw_reaction_add (some st) messageId userId emoji
                tieRand stairsRand load).1 =
                some { st with
                  votes := dictInsert st.votes userId emoji,
                  pendingReactors := st.pendingReactors.erase userId } := by
              simp [on_raw_reaction_add, hrx, hm, hp, hl, hE]
            rw [hstep] at h
            injection h with h
            rw [← h]
            exact ⟨Or.inl hckF, hg.2⟩

theorem stepChannel_good (load : Int → Option RoomGraph)
    (reg : Option CrawlState)
    (hg : ∀ st, reg = some st → GoodState st) (e : Event) :
    ∀ st', (stepChannel load reg e).1 = some st' → GoodState st' := by
  intro st' h
  cases e with
  | startCrawlEv user opts floors difficulty stairsRand =>
    cases reg with
    | some st =>
      have hEq : (stepChannel load (some st)
          (Event.startCrawlEv user opts floors difficulty stairsRand)).1 =
          some st := rfl
      rw [hEq] at h
      injection h with h
      rw [← h]
      exact hg st rfl
    | none =>
      exact dungeonCommand_good user opts floors difficulty stairsRand load st' h
  | messageEv author isBot guildNone mid =>
    cases reg with
    | none =>
      rw [show stepChannel load none (Event.messageEv author isBot guildNone mid)
          = (none, []) from on_message_unregistered author isBot guildNone mid] at h
      exact absurd h (by simp)
    | some st =>
      exact on_message_good st (hg st rfl) author isBot guildNone mid st' h
  | reactionEv messageId userId emoji tieRand stairsRand =>
    cases reg with
    | none =>
      have hEq : (stepChannel load none
          (Event.reactionEv messageId userId emoji tieRand stairsRand)).1 =
          none := rfl
      rw [hEq] at h
      exact absurd h (by simp)
    | some st =>
      exact on_reaction_good st (hg st rfl) messageId userId emoji
        tieRand stairsRand load st' h

theorem reachable_good (load : Int → Option RoomGraph)
    (reg : Option CrawlState) (h : Reachable load reg) :
    ∀ st, reg = some st → GoodState st := by
  induction h with
  | init => intro st hst; exact absurd hst (by simp)
  | step hr e ih => exact stepChannel_good load _ ih e

/-- C1: in every reachable registry entry, the check-in and voting flags
are never simultaneously raised (so the phase read off them is uniquely
determined, `phaseOf` assigning exactly one of the four phases), and an
entry removed from the registry (Ended) ignores every further message or
reaction event. -/
theorem C1_phase_invariant (load : Int → Option RoomGraph)
    (reg : Option CrawlState) (h : Reachable load reg) :
    (∀ st, reg = some st →
      ¬(st.waitingForCheckin = true ∧ st.waitingForReactions = true)) ∧
    (∃! p, phaseOf reg = p) ∧
    (∀ author isBot guildNone mid,
      stepChannel load none (Event.messageEv author isBot guildNone mid) =
        (none, [])) ∧
    (∀ mid uid em tr sr,
      stepChannel load none (Event.reactionEv mid uid em tr sr) =
        (none, [])) := by
  refine ⟨?_, ⟨phaseOf reg, rfl, fun p hp => hp.symm⟩,
    fun a b g m => on_message_unregistered a b g m, fun m u em t s => rfl⟩
  intro st hst hc
  obtain ⟨h1, h2⟩ := hc
  rcases (reachable_good load reg h st hst).1 with h0 | h0
  · rw [h1] at h0; exact Bool.noConfusion h0
  · rw [h2] at h0; exact Bool.noConfusion h0

/-- C10: in every reachable registered session whose configured floor
count is at least 1, the current floor never exceeds the configured floor
count. -/
theorem C10_floor_bound (load : Int → Option RoomGraph)
    (reg : Option CrawlState) (h : Reachable load reg) (st : CrawlState)
    (hreg : reg = some st) (hfl : 1 ≤ st.floors) :
    st.currentFloor ≤ st.floors :=
  (reachable_good load reg h st hreg).2 hfl

/-- The session produced by one concrete crawl-start event (player 1
inviting player 2 into a three-floor crawl over the sample graph). -/
def startedState : CrawlState :=
  { players := [1, 2],
    floors := 3,
    difficulty := "easy",
    currentFloor := 1,
    currentDungeon := sampleGraph,
    currentRoomId := "A",
    stairsRoomId := some "B",
    awaitingActivity := {1, 2},
    waitingForCheckin := true,
    waitingForReactions := false,
    pendingReactors := ∅,
    votes := [],
    voteMessageId := none,
    currentPossibleDirs := [] }

/-- Witness for C1 at the concrete reachable state right after the crawl
starts: the two waiting flags are not both raised. -/
theorem C1_phase_invariant_witness :
    ¬(startedState.waitingForCheckin = true ∧
      startedState.waitingForReactions = true) :=
  (C1_phase_invariant sampleLoad _ (Reachable.step Reachable.init
    (Event.startCrawlEv 1 [some 2] 3 "easy" 0))).1 startedState (by decide)

/-- Witness for C10 at the same concrete reachable state: floor 1 of 3. -/
theorem C10_floor_bound_witness :
    startedState.currentFloor ≤ startedState.floors :=
  C10_floor_bound sampleLoad _ (Reachable.step Reachable.init
    (Event.startCrawlEv 1 [some 2] 3 "easy" 0)) startedState (by decide)
    (by decide)
